import Mathlib

/-!
Verification of the `typeinfer` schema-inference engine.

This file is a shallow embedding of the core of the repository:

* `src/utils/inferSchema.ts` — `SchemaType`, `inferSchema`,
  `inferPrimitiveSchema`, `mergeSchemas`;
* `src/generators/typescript.ts` — `generateTypeScriptFromSchema`;
* `src/generators/jsonSchema.ts` — `generateJsonSchemaFromSchema`;
* `src/index.ts` — `dedupeUnions` (both the TypeScript-text pass and the
  JSON-Schema `anyOf` pass, including a small model of `JSON.parse` /
  `JSON.stringify` needed by the latter).

JavaScript values fed to `inferSchema` are modelled by `JSValue`; IEEE-754
doubles are modelled by `JSNum` (the three non-finite values plus a finite
rational, which is all the classifier inspects).  A JS object is modelled as
an association list in key-insertion order, matching `Object.entries` /
`Object.keys` iteration order for the string keys produced by JSON parsing.
-/

/-- Model of a JavaScript number: NaN, the two infinities, or a finite value.
`Number.isInteger` is false on the three non-finite values. -/
inductive JSNum : Type where
  | nan : JSNum
  | posInf : JSNum
  | negInf : JSNum
  | finite (q : ℚ) : JSNum
  deriving DecidableEq

/-- Model of `Number.isInteger`: true only for finite values with no
fractional component. -/
def JSNum.isInteger : JSNum → Bool
  | .finite q => q.den == 1
  | _ => false

/-- Model of a JavaScript runtime value as handed to `inferSchema`:
`null`, `undefined`, booleans, numbers, strings, arrays, and plain objects
(association list in key-insertion order). -/
inductive JSValue : Type where
  | null : JSValue
  | undef : JSValue
  | bool (b : Bool) : JSValue
  | num (n : JSNum) : JSValue
  | str (s : String) : JSValue
  | arr (elems : List JSValue) : JSValue
  | obj (fields : List (String × JSValue)) : JSValue

/-- Model of the JS test `value !== undefined` (negated). -/
def JSValue.isUndef : JSValue → Bool
  | .undef => true
  | _ => false

/-- The `SchemaType` interface of `src/utils/inferSchema.ts`: a record with a
`type` tag and optional `properties`, `items`, `format`, `required` and
`enum` fields.  An absent (`undefined`) field is `none`. -/
inductive SchemaType : Type where
  | mk (type : String)
       (properties : Option (List (String × SchemaType)))
       (items : Option SchemaType)
       (format : Option String)
       (required : Option (List String))
       (enumv : Option (List SchemaType))

def SchemaType.type : SchemaType → String
  | .mk t _ _ _ _ _ => t

def SchemaType.properties : SchemaType → Option (List (String × SchemaType))
  | .mk _ p _ _ _ _ => p

def SchemaType.items : SchemaType → Option SchemaType
  | .mk _ _ i _ _ _ => i

def SchemaType.format : SchemaType → Option String
  | .mk _ _ _ f _ _ => f

def SchemaType.required : SchemaType → Option (List String)
  | .mk _ _ _ _ r _ => r

def SchemaType.enumv : SchemaType → Option (List SchemaType)
  | .mk _ _ _ _ _ e => e

/- Boolean structural equality on `SchemaType`.  In the source, schema
nodes are compared via `JSON.stringify`; since every creation site writes its
fields in the fixed relative order `type, properties, items, format,
required, enum` and omits absent ones, stringify-equality of schema nodes
coincides with this deep structural equality. -/
mutual
def SchemaType.beq : SchemaType → SchemaType → Bool
  | .mk t1 p1 i1 f1 r1 e1, .mk t2 p2 i2 f2 r2 e2 =>
    t1 == t2 && SchemaType.beqOptProps p1 p2 && SchemaType.beqOptNode i1 i2 &&
      f1 == f2 && r1 == r2 && SchemaType.beqOptList e1 e2
termination_by structural a => a

def SchemaType.beqOptNode : Option SchemaType → Option SchemaType → Bool
  | none, none => true
  | some a, some b => SchemaType.beq a b
  | _, _ => false
termination_by structural a => a

def SchemaType.beqOptProps :
    Option (List (String × SchemaType)) → Option (List (String × SchemaType)) → Bool
  | none, none => true
  | some a, some b => SchemaType.beqProps a b
  | _, _ => false
termination_by structural a => a

def SchemaType.beqProps : List (String × SchemaType) → List (String × SchemaType) → Bool
  | [], [] => true
  | (k1, v1) :: r1, (k2, v2) :: r2 =>
    k1 == k2 && SchemaType.beq v1 v2 && SchemaType.beqProps r1 r2
  | _, _ => false
termination_by structural a => a

def SchemaType.beqOptList : Option (List SchemaType) → Option (List SchemaType) → Bool
  | none, none => true
  | some a, some b => SchemaType.beqList a b
  | _, _ => false
termination_by structural a => a

def SchemaType.beqList : List SchemaType → List SchemaType → Bool
  | [], [] => true
  | a :: r1, b :: r2 => SchemaType.beq a b && SchemaType.beqList r1 r2
  | _, _ => false
termination_by structural a => a
end

mutual
theorem SchemaType.beq_iff : ∀ a b : SchemaType, SchemaType.beq a b = true ↔ a = b
  | .mk t1 p1 i1 f1 r1 e1, .mk t2 p2 i2 f2 r2 e2 => by
    simp only [SchemaType.beq, Bool.and_eq_true, beq_iff_eq, SchemaType.mk.injEq]
    rw [show (SchemaType.beqOptProps p1 p2 = true ↔ p1 = p2) from SchemaType.beqOptProps_iff p1 p2,
        show (SchemaType.beqOptNode i1 i2 = true ↔ i1 = i2) from SchemaType.beqOptNode_iff i1 i2,
        show (SchemaType.beqOptList e1 e2 = true ↔ e1 = e2) from SchemaType.beqOptList_iff e1 e2]
    tauto

theorem SchemaType.beqOptNode_iff :
    ∀ a b : Option SchemaType, SchemaType.beqOptNode a b = true ↔ a = b
  | none, none => by simp [SchemaType.beqOptNode]
  | some a, some b => by simp [SchemaType.beqOptNode, SchemaType.beq_iff a b]
  | none, some b => by simp [SchemaType.beqOptNode]
  | some a, none => by simp [SchemaType.beqOptNode]

theorem SchemaType.beqOptProps_iff :
    ∀ a b : Option (List (String × SchemaType)), SchemaType.beqOptProps a b = true ↔ a = b
  | none, none => by simp [SchemaType.beqOptProps]
  | some a, some b => by simp [SchemaType.beqOptProps, SchemaType.beqProps_iff a b]
  | none, some b => by simp [SchemaType.beqOptProps]
  | some a, none => by simp [SchemaType.beqOptProps]

theorem SchemaType.beqProps_iff :
    ∀ a b : List (String × SchemaType), SchemaType.beqProps a b = true ↔ a = b
  | [], [] => by simp [SchemaType.beqProps]
  | (k1, v1) :: r1, (k2, v2) :: r2 => by
    simp only [SchemaType.beqProps, Bool.and_eq_true, beq_iff_eq, List.cons.injEq,
      Prod.mk.injEq, SchemaType.beq_iff v1 v2, SchemaType.beqProps_iff r1 r2]
  | [], (k2, v2) :: r2 => by simp [SchemaType.beqProps]
  | (k1, v1) :: r1, [] => by simp [SchemaType.beqProps]

theorem SchemaType.beqOptList_iff :
    ∀ a b : Option (List SchemaType), SchemaType.beqOptList a b = true ↔ a = b
  | none, none => by simp [SchemaType.beqOptList]
  | some a, some b => by simp [SchemaType.beqOptList, SchemaType.beqList_iff a b]
  | none, some b => by simp [SchemaType.beqOptList]
  | some a, none => by simp [SchemaType.beqOptList]

theorem SchemaType.beqList_iff :
    ∀ a b : List SchemaType, SchemaType.beqList a b = true ↔ a = b
  | [], [] => by simp [SchemaType.beqList]
  | a :: r1, b :: r2 => by
    simp [SchemaType.beqList, SchemaType.beq_iff a b, SchemaType.beqList_iff r1 r2]
  | [], b :: r2 => by simp [SchemaType.beqList]
  | a :: r1, [] => by simp [SchemaType.beqList]
end

instance : DecidableEq SchemaType := fun a b =>
  decidable_of_iff (SchemaType.beq a b = true) (SchemaType.beq_iff a b)

/-! ## Primitive classifier (`inferPrimitiveSchema`, `src/utils/inferSchema.ts`) -/

/-- Consume exactly `n` decimal digits, returning the remaining characters. -/
def chompDigits : Nat → List Char → Option (List Char)
  | 0, l => some l
  | _ + 1, [] => none
  | n + 1, c :: l => if c.isDigit then chompDigits n l else none

/-- Consume one expected literal character. -/
def chompChar (c : Char) : List Char → Option (List Char)
  | [] => none
  | d :: l => if d = c then some l else none

/-- Model of the anchored date-time test
`/^\d\x7b4\x7d-\d\x7b2\x7d-\d\x7b2\x7dT\d\x7b2\x7d:\d\x7b2\x7d:\d\x7b2\x7d(\.\d+)?(Z|[+-]\d\x7b2\x7d:\d\x7b2\x7d)$/`.
The optional fraction and the greedy digit runs are deterministic here because
the zone part never starts with a dot or a digit. -/
def isDateTimeStr (s : String) : Bool :=
  let core := (chompDigits 4 s.data).bind (chompChar '-') |>.bind (chompDigits 2)
    |>.bind (chompChar '-') |>.bind (chompDigits 2) |>.bind (chompChar 'T')
    |>.bind (chompDigits 2) |>.bind (chompChar ':') |>.bind (chompDigits 2)
    |>.bind (chompChar ':') |>.bind (chompDigits 2)
  match core with
  | none => false
  | some rest =>
    let afterFrac : Option (List Char) :=
      match rest with
      | '.' :: r => if (r.takeWhile Char.isDigit).isEmpty then none
                    else some (r.dropWhile Char.isDigit)
      | _ => some rest
    match afterFrac with
    | none => false
    | some tz =>
      match tz with
      | ['Z'] => true
      | c :: r =>
        (c = '+' || c = '-') &&
          (match (chompDigits 2 r).bind (chompChar ':') |>.bind (chompDigits 2) with
           | some [] => true
           | _ => false)
      | [] => false

/-- Character class `[a-zA-Z0-9._%+-]` of the email regex's local part. -/
def isLocalChar (c : Char) : Bool :=
  c.isAlphanum || c = '.' || c = '_' || c = '%' || c = '+' || c = '-'

/-- Character class `[a-zA-Z0-9.-]` of the email regex's domain part. -/
def isDomChar (c : Char) : Bool :=
  c.isAlphanum || c = '.' || c = '-'

/-- Existence of a split `A ++ "." ++ B` of the domain with `A` nonempty over
`[a-zA-Z0-9.-]` and `B` a purely alphabetic TLD of length at least 2 running to
the end of the string — the backtracking semantics of
`[a-zA-Z0-9.-]+\.[a-zA-Z]\x7b2,\x7d$`.  `acc` holds the (reversed) characters
scanned so far. -/
def emailDomainSplit (acc : List Char) : List Char → Bool
  | [] => false
  | '.' :: rest =>
      (decide (acc ≠ []) && acc.all isDomChar && decide (2 ≤ rest.length)
        && rest.all Char.isAlpha)
      || emailDomainSplit ('.' :: acc) rest
  | c :: rest => emailDomainSplit (c :: acc) rest

/-- Model of the anchored email test
`/^[a-zA-Z0-9._%+-]+@[a-zA-Z0-9.-]+\.[a-zA-Z]\x7b2,\x7d$/`.  Neither character
class contains `@`, so the local part runs exactly to the first `@` and the
rest of the string must contain no further `@`. -/
def isEmailStr (s : String) : Bool :=
  let l := s.data
  let localPart := l.takeWhile (fun c => !(c = '@'))
  match l.dropWhile (fun c => !(c = '@')) with
  | '@' :: dom =>
      decide (localPart ≠ []) && localPart.all isLocalChar && emailDomainSplit [] dom
  | _ => false

/-- Hexadecimal digit class `[0-9a-fA-F]`. -/
def isHexChar (c : Char) : Bool :=
  c.isDigit || ('a' ≤ c && c ≤ 'f') || ('A' ≤ c && c ≤ 'F')

/-- Consume exactly `n` hexadecimal digits. -/
def chompHex : Nat → List Char → Option (List Char)
  | 0, l => some l
  | _ + 1, [] => none
  | n + 1, c :: l => if isHexChar c then chompHex n l else none

/-- Model of the anchored UUID test: 8-4-4-4-12 hyphen-separated hex groups. -/
def isUuidStr (s : String) : Bool :=
  match (chompHex 8 s.data).bind (chompChar '-') |>.bind (chompHex 4)
    |>.bind (chompChar '-') |>.bind (chompHex 4) |>.bind (chompChar '-')
    |>.bind (chompHex 4) |>.bind (chompChar '-') |>.bind (chompHex 12) with
  | some [] => true
  | _ => false

/-- Model of JavaScript `typeof`. -/
def typeofStr : JSValue → String
  | .null => "object"
  | .undef => "undefined"
  | .bool _ => "boolean"
  | .num _ => "number"
  | .str _ => "string"
  | .arr _ => "object"
  | .obj _ => "object"

/-- The `\x7b type: "any" \x7d` node used both as the placeholder element type
of an empty array and as the fallback result of merging zero schemas. -/
def anySchema : SchemaType := .mk "any" none none none none none

/-- `inferPrimitiveSchema` of `src/utils/inferSchema.ts`: dispatch on
`typeof value`; strings are checked against the three format detectors in
priority order date-time, email, uuid; numbers split on `Number.isInteger`;
any other runtime type falls back to `\x7b type: typeof value \x7d`. -/
def inferPrimitiveSchema : JSValue → SchemaType
  | .str s =>
    if isDateTimeStr s then .mk "string" none none (some "date-time") none none
    else if isEmailStr s then .mk "string" none none (some "email") none none
    else if isUuidStr s then .mk "string" none none (some "uuid") none none
    else .mk "string" none none none none none
  | .num n =>
    if n.isInteger then .mk "integer" none none none none none
    else .mk "number" none none none none none
  | .bool _ => .mk "boolean" none none none none none
  | v => .mk (typeofStr v) none none none none none

/-! ## Unifier (`mergeSchemas`, `src/utils/inferSchema.ts`) -/

/-- The fresh union node `\x7b type: "union", enum: cs \x7d`. -/
def unionSchema (cs : List SchemaType) : SchemaType :=
  .mk "union" none none none none (some cs)

/-- First-seen-order deduplication with an accumulated `seen` set, as the
source builds `uniqueSchemas` from the `uniqueSchemaStrings` set (stringify
equality coincides with structural equality, see `SchemaType.beq`). -/
def dedupFS (seen : List SchemaType) : List SchemaType → List SchemaType
  | [] => []
  | s :: rest => if s ∈ seen then dedupFS seen rest else s :: dedupFS (s :: seen) rest

/-- `mergeSchemas` of `src/utils/inferSchema.ts`: empty input falls back to
the `any` node; a singleton is returned unchanged; if all schemas compare
equal the first is returned; otherwise the deduplicated list is returned as a
single node (if one remains) or wrapped in a fresh union node. -/
def mergeSchemas : List SchemaType → SchemaType
  | [] => anySchema
  | [s] => s
  | s₀ :: s₁ :: rest =>
    if (s₀ :: s₁ :: rest).all (fun s => s == s₀) then s₀
    else
      match dedupFS [] (s₀ :: s₁ :: rest) with
      | [u] => u
      | us => unionSchema us

/-! ## Structural inferrer (`inferSchema`, `src/utils/inferSchema.ts`) -/

/-- Keys whose value is not the `undefined` sentinel, in iteration order —
the `required` array built during object inference (`value !== undefined`;
an explicit `null` value still counts as present). -/
def requiredKeysOf (fields : List (String × JSValue)) : List String :=
  (fields.filter (fun p => !p.2.isUndef)).map Prod.fst

mutual
def inferSchema : JSValue → SchemaType
  | .null => .mk "null" none none none none none
  | .undef => .mk "null" none none none none none
  | .arr [] => .mk "array" none (some anySchema) none none none
  | .arr (x :: xs) =>
      .mk "array" none (some (mergeSchemas (inferList (x :: xs)))) none none none
  | .obj fields =>
      let req := requiredKeysOf fields
      .mk "object" (some (inferProps fields)) none none
        (if req.length > 0 then some req else none) none
  | .bool b => inferPrimitiveSchema (.bool b)
  | .num n => inferPrimitiveSchema (.num n)
  | .str s => inferPrimitiveSchema (.str s)
termination_by structural v => v

def inferList : List JSValue → List SchemaType
  | [] => []
  | v :: vs => inferSchema v :: inferList vs
termination_by structural l => l

def inferProps : List (String × JSValue) → List (String × SchemaType)
  | [] => []
  | (k, v) :: rest => (k, inferSchema v) :: inferProps rest
termination_by structural l => l
end

/-! ## Interface-style renderer (`generateTypeScriptFromSchema`,
`src/generators/typescript.ts`) -/

/-- The `GenerateOptions` record shared by both generators. -/
structure GenerateOptions where
  inferOptional : Bool
  prettify : Bool
  interfaceName : Option String := none
  deriving DecidableEq

/-- Model of the two-space `repeat(depth)` indentation. -/
def indentTS (depth : Nat) : String := String.join (List.replicate depth "  ")

mutual
/-- `generateTypeScriptFromSchema`: the recursive interface-style renderer.
The JS guard `if (!schema) return "any"` cannot fire in the model (the
argument is never `undefined`). -/
def generateTypeScriptFromSchema (schema : SchemaType) (options : GenerateOptions)
    (depth : Nat) : String :=
  match schema with
  | .mk ty props items fmt _ en =>
    match ty with
    | "null" => "null"
    | "string" =>
      if fmt = some "date-time" then "Date"
      else if fmt = some "email" then "string"
      else if fmt = some "uuid" then "string"
      else "string"
    | "number" => "number"
    | "integer" => "number"
    | "boolean" => "boolean"
    | "array" =>
      (match items with
       | some it => generateTypeScriptFromSchema it options (depth + 1)
       | none => "any") ++ "[]"
    | "object" =>
      match props with
      | none => "Record<string, any>"
      | some ps =>
        "\x7b\n" ++ genTSProps ps (match schema with | .mk _ _ _ _ r _ => r) options depth
          ++ indentTS depth ++ "\x7d"
    | "union" =>
      match en with
      | some cs => genTSUnion cs options depth
      | none => "any"
    | _ => "any"
termination_by structural schema

/-- The property loop of the `object` case: each entry renders as
`<indent><key><?>: <type>;\n`, the optional marker appearing iff the key is
outside the node's `required` list and `inferOptional` is set
(`schema.required?.includes(key)`; an absent list makes every key optional).
-/
def genTSProps (ps : List (String × SchemaType)) (req : Option (List String))
    (options : GenerateOptions) (depth : Nat) : String :=
  match ps with
  | [] => ""
  | (key, value) :: rest =>
    let isRequired := (req.getD []).contains key
    let optionalMarker := if !isRequired && options.inferOptional then "?" else ""
    indentTS (depth + 1) ++ key ++ optionalMarker ++ ": "
      ++ generateTypeScriptFromSchema value options (depth + 1) ++ ";\n"
      ++ genTSProps rest req options depth
termination_by structural ps

/-- The union case: children joined with `" | "` (the `Array.join` of the
source), at the same depth. -/
def genTSUnion (cs : List SchemaType) (options : GenerateOptions) (depth : Nat) : String :=
  match cs with
  | [] => ""
  | [s] => generateTypeScriptFromSchema s options depth
  | s :: rest =>
    generateTypeScriptFromSchema s options depth ++ " | " ++ genTSUnion rest options depth
termination_by structural cs
end

/-- `generateTypeScript` minus the external prettier pass (out of scope;
on failure the source falls back to this unformatted text anyway):
`interface <name> <body>\n` with the JS-falsy default for the name. -/
def generateTypeScript (schema : SchemaType) (options : GenerateOptions) : String :=
  let interfaceName :=
    match options.interfaceName with
    | some n => if n = "" then "GeneratedInterface" else n
    | none => "GeneratedInterface"
  "interface " ++ interfaceName ++ " " ++ generateTypeScriptFromSchema schema options 0 ++ "\n"

/-! ## JSON value model -/

/-- A JSON document value, as produced by `JSON.parse` and consumed by
`JSON.stringify`: objects keep their keys in insertion order. -/
inductive JsonValue : Type where
  | null : JsonValue
  | bool (b : Bool) : JsonValue
  | num (q : ℚ) : JsonValue
  | str (s : String) : JsonValue
  | arr (elems : List JsonValue) : JsonValue
  | obj (fields : List (String × JsonValue)) : JsonValue

mutual
def JsonValue.beq : JsonValue → JsonValue → Bool
  | .null, .null => true
  | .bool a, .bool b => a == b
  | .num a, .num b => a == b
  | .str a, .str b => a == b
  | .arr a, .arr b => JsonValue.beqList a b
  | .obj a, .obj b => JsonValue.beqFields a b
  | _, _ => false
termination_by structural a => a

def JsonValue.beqList : List JsonValue → List JsonValue → Bool
  | [], [] => true
  | a :: r1, b :: r2 => JsonValue.beq a b && JsonValue.beqList r1 r2
  | _, _ => false
termination_by structural a => a

def JsonValue.beqFields : List (String × JsonValue) → List (String × JsonValue) → Bool
  | [], [] => true
  | (k1, v1) :: r1, (k2, v2) :: r2 =>
    k1 == k2 && JsonValue.beq v1 v2 && JsonValue.beqFields r1 r2
  | _, _ => false
termination_by structural a => a
end

mutual
theorem JsonValue.jbeq_iff : ∀ a b : JsonValue, JsonValue.beq a b = true ↔ a = b
  | .null, .null => by simp [JsonValue.beq]
  | .bool a, .bool b => by simp [JsonValue.beq]
  | .num a, .num b => by simp [JsonValue.beq]
  | .str a, .str b => by simp [JsonValue.beq]
  | .arr a, .arr b => by simp [JsonValue.beq, JsonValue.jbeqList_iff a b]
  | .obj a, .obj b => by simp [JsonValue.beq, JsonValue.beqFields_iff a b]
  | .null, .bool _ | .null, .num _ | .null, .str _ | .null, .arr _ | .null, .obj _
  | .bool _, .null | .bool _, .num _ | .bool _, .str _ | .bool _, .arr _ | .bool _, .obj _
  | .num _, .null | .num _, .bool _ | .num _, .str _ | .num _, .arr _ | .num _, .obj _
  | .str _, .null | .str _, .bool _ | .str _, .num _ | .str _, .arr _ | .str _, .obj _
  | .arr _, .null | .arr _, .bool _ | .arr _, .num _ | .arr _, .str _ | .arr _, .obj _
  | .obj _, .null | .obj _, .bool _ | .obj _, .num _ | .obj _, .str _ | .obj _, .arr _ => by
    simp [JsonValue.beq]

theorem JsonValue.jbeqList_iff : ∀ a b : List JsonValue, JsonValue.beqList a b = true ↔ a = b
  | [], [] => by simp [JsonValue.beqList]
  | a :: r1, b :: r2 => by
    simp [JsonValue.beqList, JsonValue.jbeq_iff a b, JsonValue.jbeqList_iff r1 r2]
  | [], _ :: _ => by simp [JsonValue.beqList]
  | _ :: _, [] => by simp [JsonValue.beqList]

theorem JsonValue.beqFields_iff :
    ∀ a b : List (String × JsonValue), JsonValue.beqFields a b = true ↔ a = b
  | [], [] => by simp [JsonValue.beqFields]
  | (k1, v1) :: r1, (k2, v2) :: r2 => by
    simp only [JsonValue.beqFields, Bool.and_eq_true, beq_iff_eq, List.cons.injEq,
      Prod.mk.injEq, JsonValue.jbeq_iff v1 v2, JsonValue.beqFields_iff r1 r2]
  | [], _ :: _ => by simp [JsonValue.beqFields]
  | _ :: _, [] => by simp [JsonValue.beqFields]
end

instance : DecidableEq JsonValue := fun a b =>
  decidable_of_iff (JsonValue.beq a b = true) (JsonValue.jbeq_iff a b)

/-! ## JSON-Schema renderer (`generateJsonSchemaFromSchema`,
`src/generators/jsonSchema.ts`) -/

mutual
/-- `generateJsonSchemaFromSchema`: builds the draft-07 schema object for one
node, returned as its field list in insertion order.  Field order follows the
source's assignment order exactly; a JS `delete` removes the key again. -/
def generateJsonSchemaFromSchema (schemaNode : SchemaType) (options : GenerateOptions) :
    List (String × JsonValue) :=
  match schemaNode with
  | .mk ty props items fmt req en =>
    match ty with
    | "null" => [("type", .str "null")]
    | "string" =>
      [("type", .str "string")] ++
        (match fmt with
         | some f => if f = "" then [] else [("format", .str f)]
         | none => [])
    | "number" => [("type", .str "number")]
    | "integer" => [("type", .str "integer")]
    | "boolean" => [("type", .str "boolean")]
    | "array" =>
      [("type", .str "array"),
       ("items", .obj (match items with
         | some it => generateJsonSchemaFromSchema it options
         | none => []))]
    | "object" =>
      let requiredVal : Option (List String) :=
        if options.inferOptional then
          match req with
          | some r => if decide (r.length > 0) then some r else none
          | none => none
        else
          match props with
          | some ps => some (ps.map Prod.fst)
          | none => none
      let requiredVal2 : Option (List String) :=
        match requiredVal with
        | some [] => none
        | x => x
      [("type", .str "object"),
       ("properties", .obj (match props with
         | some ps => genJsonProps ps options
         | none => []))]
        ++ (match requiredVal2 with
            | some r => [("required", .arr (r.map JsonValue.str))]
            | none => [])
    | "union" =>
      match en with
      | some cs =>
        if decide (cs.length > 0) then
          let anyOf := genJsonList cs options
          if anyOf.isEmpty then [] else [("anyOf", .arr (anyOf.map JsonValue.obj))]
        else [("description", .str "Union type with no specific variants, effectively \x27any\x27.")]
      | none => [("description", .str "Union type with no specific variants, effectively \x27any\x27.")]
    | _ => [("description", .str ("Represents type: " ++ ty))]
termination_by structural schemaNode

def genJsonProps (ps : List (String × SchemaType)) (options : GenerateOptions) :
    List (String × JsonValue) :=
  match ps with
  | [] => []
  | (k, v) :: rest => (k, .obj (generateJsonSchemaFromSchema v options)) :: genJsonProps rest options
termination_by structural ps

def genJsonList (cs : List SchemaType) (options : GenerateOptions) :
    List (List (String × JsonValue)) :=
  match cs with
  | [] => []
  | c :: rest => generateJsonSchemaFromSchema c options :: genJsonList rest options
termination_by structural cs
end

/-! ## `JSON.stringify` model -/

/-- Four lowercase hex digits, for control-character escapes. -/
def hex4 (n : Nat) : String :=
  let d := fun (k : Nat) => "0123456789abcdef".data.getD (k % 16) '0'
  String.mk [d (n / 4096), d (n / 256), d (n / 16), d n]

/-- JSON string-character escaping as performed by `JSON.stringify`. -/
def escapeJsonChar (c : Char) : String :=
  if c = '"' then "\\\""
  else if c = '\\' then "\\\\"
  else if c = '\x08' then "\\b"
  else if c = '\x0c' then "\\f"
  else if c = '\n' then "\\n"
  else if c = '\r' then "\\r"
  else if c = '\t' then "\\t"
  else if c.toNat < 32 then "\\u" ++ hex4 c.toNat
  else String.singleton c

def quoteJson (s : String) : String :=
  "\"" ++ String.join (s.data.map escapeJsonChar) ++ "\""

/-- Decimal digits of the fractional part of `q ∈ [0, 1)`, up to a depth
bound.  (JavaScript prints the shortest round-tripping decimal of a double;
the verification inputs only ever serialize integers, where the two agree.) -/
def ratFracDigits : Nat → ℚ → String
  | 0, _ => ""
  | n + 1, q =>
    if q = 0 then ""
    else
      let q10 := q * 10
      toString q10.floor ++ ratFracDigits n (q10 - q10.floor)

/-- Serialization of a JSON number. -/
def stringifyRat (q : ℚ) : String :=
  if q.den = 1 then toString q.num
  else (if q < 0 then "-" else "") ++ toString |q|.floor ++ "." ++ ratFracDigits 24 (|q| - |q|.floor)

mutual
/-- Compact `JSON.stringify` (no indent argument). -/
def stringifyJson : JsonValue → String
  | .null => "null"
  | .bool b => if b then "true" else "false"
  | .num q => stringifyRat q
  | .str s => quoteJson s
  | .arr xs => "[" ++ stringifyJsonList xs ++ "]"
  | .obj fs => "\x7b" ++ stringifyJsonFields fs ++ "\x7d"
termination_by structural v => v

def stringifyJsonList : List JsonValue → String
  | [] => ""
  | [x] => stringifyJson x
  | x :: xs => stringifyJson x ++ "," ++ stringifyJsonList xs
termination_by structural l => l

def stringifyJsonFields : List (String × JsonValue) → String
  | [] => ""
  | [(k, v)] => quoteJson k ++ ":" ++ stringifyJson v
  | (k, v) :: fs => quoteJson k ++ ":" ++ stringifyJson v ++ "," ++ stringifyJsonFields fs
termination_by structural l => l
end

/-- Indentation of `JSON.stringify(x, null, 2)` at nesting `level`. -/
def padJson (level : Nat) : String := String.join (List.replicate level "  ")

mutual
/-- Pretty `JSON.stringify(x, null, 2)`. -/
def prettyJson (level : Nat) : JsonValue → String
  | .arr [] => "[]"
  | .arr (x :: xs) =>
    "[\n" ++ prettyJsonList (level + 1) (x :: xs) ++ "\n" ++ padJson level ++ "]"
  | .obj [] => "\x7b\x7d"
  | .obj (f :: fs) =>
    "\x7b\n" ++ prettyJsonFields (level + 1) (f :: fs) ++ "\n" ++ padJson level ++ "\x7d"
  | v => stringifyJson v
termination_by structural v => v

def prettyJsonList (level : Nat) : List JsonValue → String
  | [] => ""
  | [x] => padJson level ++ prettyJson level x
  | x :: xs => padJson level ++ prettyJson level x ++ ",\n" ++ prettyJsonList level xs
termination_by structural l => l

def prettyJsonFields (level : Nat) : List (String × JsonValue) → String
  | [] => ""
  | [(k, v)] => padJson level ++ quoteJson k ++ ": " ++ prettyJson level v
  | (k, v) :: fs =>
    padJson level ++ quoteJson k ++ ": " ++ prettyJson level v ++ ",\n"
      ++ prettyJsonFields level fs
termination_by structural l => l
end

/-- `generateJsonSchema` of `src/generators/jsonSchema.ts`: the draft-07
identifier and title, the root node's fields spread at the top level, then
`JSON.stringify` with or without the 2-space indent. -/
def generateJsonSchema (schema : SchemaType) (options : GenerateOptions) : String :=
  let title :=
    match options.interfaceName with
    | some n => if n = "" then "GeneratedSchema" else n
    | none => "GeneratedSchema"
  let output := JsonValue.obj
    ([("$schema", .str "http://json-schema.org/draft-07/schema#"), ("title", .str title)]
      ++ generateJsonSchemaFromSchema schema options)
  if options.prettify then prettyJson 0 output else stringifyJson output

/-! ## `JSON.parse` model -/

/-- The whitespace accepted by the JSON grammar. -/
def jsonWS (c : Char) : Bool := c = ' ' || c = '\t' || c = '\n' || c = '\r'

/-- Value of a (possibly empty) run of decimal digits. -/
def digitsToNat (l : List Char) : Nat :=
  l.foldl (fun acc c => 10 * acc + (c.toNat - '0'.toNat)) 0

/-- Number parsing per the JSON grammar:
`-? (0 | [1-9][0-9]*) (. [0-9]+)? ([eE][+-]?[0-9]+)?`. -/
def parseJsonNumber (l : List Char) : Option (ℚ × List Char) :=
  let (neg, l1) : Bool × List Char := match l with
    | '-' :: r => (true, r)
    | _ => (false, l)
  let ds := l1.takeWhile Char.isDigit
  let l2 := l1.dropWhile Char.isDigit
  if ds.isEmpty then none
  else if ds.length > 1 && ds.headD '0' = '0' then none
  else
    let (fds, l3) : List Char × List Char := match l2 with
      | '.' :: r => (r.takeWhile Char.isDigit, r.dropWhile Char.isDigit)
      | _ => ([], l2)
    if (match l2 with | '.' :: _ => fds.isEmpty | _ => false) then none
    else
      let expPart : Option (Int × List Char) := match l3 with
        | 'e' :: r | 'E' :: r =>
          let (esign, r1) : Int × List Char := match r with
            | '+' :: r2 => (1, r2)
            | '-' :: r2 => (-1, r2)
            | _ => (1, r)
          let eds := r1.takeWhile Char.isDigit
          if eds.isEmpty then none
          else some (esign * (digitsToNat eds : Int), r1.dropWhile Char.isDigit)
        | _ => some (0, l3)
      match expPart with
      | none => none
      | some (e, rest) =>
        let intVal : Int := if neg then -(digitsToNat ds : Int) else (digitsToNat ds : Int)
        if fds.isEmpty && e == 0 then some ((intVal : ℚ), rest)
        else
          let mantissa : ℚ :=
            (digitsToNat ds : ℚ) + (digitsToNat fds : ℚ) / ((10 : ℚ) ^ fds.length)
          let signed : ℚ := if neg then -mantissa else mantissa
          some (signed * (10 : ℚ) ^ e, rest)

/-- Hex digit value. -/
def hexVal (c : Char) : Nat :=
  if c.isDigit then c.toNat - '0'.toNat
  else if 'a' ≤ c && c ≤ 'f' then c.toNat - 'a'.toNat + 10
  else if 'A' ≤ c && c ≤ 'F' then c.toNat - 'A'.toNat + 10
  else 0

/-- String-body parsing after the opening quote, with the JSON escapes.
`\uXXXX` maps through `Char.ofNat` (lone surrogates, which JS strings permit,
collapse to the null character — the verification inputs use none). -/
def parseJsonStringRest : Nat → List Char → Option (List Char × List Char)
  | 0, _ => none
  | _ + 1, [] => none
  | fuel + 1, c :: rest =>
    if c = '"' then some ([], rest)
    else if c = '\\' then
      match rest with
      | [] => none
      | e :: rest2 =>
        let esc : Option (Char × List Char) :=
          if e = '"' then some ('"', rest2)
          else if e = '\\' then some ('\\', rest2)
          else if e = '/' then some ('/', rest2)
          else if e = 'b' then some ('\x08', rest2)
          else if e = 'f' then some ('\x0c', rest2)
          else if e = 'n' then some ('\n', rest2)
          else if e = 'r' then some ('\r', rest2)
          else if e = 't' then some ('\t', rest2)
          else if e = 'u' then
            match rest2 with
            | h1 :: h2 :: h3 :: h4 :: rest3 =>
              if isHexChar h1 && isHexChar h2 && isHexChar h3 && isHexChar h4 then
                some (Char.ofNat (hexVal h1 * 4096 + hexVal h2 * 256 + hexVal h3 * 16 + hexVal h4),
                  rest3)
              else none
            | _ => none
          else none
        match esc with
        | none => none
        | some (ch, rest3) =>
          match parseJsonStringRest fuel rest3 with
          | some (body, rest4) => some (ch :: body, rest4)
          | none => none
    else if c.toNat < 32 then none
    else
      match parseJsonStringRest fuel rest with
      | some (body, rest2) => some (c :: body, rest2)
      | none => none

/-- Insertion of a parsed member, with the JS duplicate-key rule: an existing
key keeps its position and gets the new value, a new key is appended. -/
def objInsert (fields : List (String × JsonValue)) (k : String) (v : JsonValue) :
    List (String × JsonValue) :=
  if fields.any (fun p => p.1 == k) then
    fields.map (fun p => if p.1 == k then (k, v) else p)
  else fields ++ [(k, v)]

mutual
/-- Recursive-descent JSON value parser (fuel-indexed). -/
def parseJsonValue : Nat → List Char → Option (JsonValue × List Char)
  | 0, _ => none
  | fuel + 1, l =>
    match l.dropWhile jsonWS with
    | 'n' :: 'u' :: 'l' :: 'l' :: r => some (.null, r)
    | 't' :: 'r' :: 'u' :: 'e' :: r => some (.bool true, r)
    | 'f' :: 'a' :: 'l' :: 's' :: 'e' :: r => some (.bool false, r)
    | '"' :: r =>
      match parseJsonStringRest (r.length + 1) r with
      | some (body, rest) => some (.str (String.mk body), rest)
      | none => none
    | '{' :: r =>
      (match (r.dropWhile jsonWS) with
       | '}' :: rest => some (.obj [], rest)
       | r1 => parseJsonMembers fuel r1 [])
    | '[' :: r =>
      (match (r.dropWhile jsonWS) with
       | ']' :: rest => some (.arr [], rest)
       | r1 => parseJsonElements fuel r1 [])
    | l1 =>
      match parseJsonNumber l1 with
      | some (q, rest) => some (.num q, rest)
      | none => none

def parseJsonMembers (fuel : Nat) (l : List Char) (acc : List (String × JsonValue)) :
    Option (JsonValue × List Char) :=
  match fuel with
  | 0 => none
  | fuel + 1 =>
    match l with
    | '"' :: r =>
      match parseJsonStringRest (r.length + 1) r with
      | none => none
      | some (key, rest1) =>
        match rest1.dropWhile jsonWS with
        | ':' :: rest2 =>
          match parseJsonValue fuel rest2 with
          | none => none
          | some (v, rest3) =>
            let acc2 := objInsert acc (String.mk key) v
            match rest3.dropWhile jsonWS with
            | ',' :: rest4 => parseJsonMembers fuel (rest4.dropWhile jsonWS) acc2
            | '}' :: rest4 => some (.obj acc2, rest4)
            | _ => none
        | _ => none
    | _ => none

def parseJsonElements (fuel : Nat) (l : List Char) (acc : List JsonValue) :
    Option (JsonValue × List Char) :=
  match fuel with
  | 0 => none
  | fuel + 1 =>
    match parseJsonValue fuel l with
    | none => none
    | some (v, rest) =>
      match rest.dropWhile jsonWS with
      | ',' :: rest2 => parseJsonElements fuel rest2 (acc ++ [v])
      | ']' :: rest2 => some (.arr (acc ++ [v]), rest2)
      | _ => none
end

/-- Model of `JSON.parse`: parse one value, allow trailing whitespace, reject
anything else.  `none` models the `SyntaxError` throw. -/
def parseJson (s : String) : Option JsonValue :=
  match parseJsonValue (2 * s.length + 16) s.data with
  | some (v, rest) => if (rest.dropWhile jsonWS).isEmpty then some v else none
  | none => none

/-! ## Union deduplication pass (`dedupeUnions`, `src/index.ts`) -/

/-- First-seen deduplication of `anyOf` members by `JSON.stringify` equality
(the `seen` set of serialized members). -/
def dedupeByStringify (seen : List String) : List JsonValue → List JsonValue
  | [] => []
  | v :: rest =>
    let key := stringifyJson v
    if key ∈ seen then dedupeByStringify seen rest
    else v :: dedupeByStringify (key :: seen) rest

/-- Model of `delete node[k]`. -/
def removeKey (k : String) (fields : List (String × JsonValue)) : List (String × JsonValue) :=
  fields.filter (fun p => !(p.1 == k))

/-- Model of `Object.assign(target, src)` for the source values that carry
enumerable own properties: objects contribute their entries, arrays and
strings contribute index-keyed entries; primitives contribute nothing. -/
def assignValue (target : List (String × JsonValue)) : JsonValue → List (String × JsonValue)
  | .obj src => src.foldl (fun acc p => objInsert acc p.1 p.2) target
  | .arr xs =>
    (xs.enum.map (fun p => (toString p.1, p.2))).foldl
      (fun acc p => objInsert acc p.1 p.2) target
  | .str s =>
    (s.data.enum.map (fun p => (toString p.1, JsonValue.str (String.singleton p.2)))).foldl
      (fun acc p => objInsert acc p.1 p.2) target
  | _ => target

/-- One node's `anyOf` rewrite inside `walk`: deduplicate the members; if
exactly one remains, splice it into the parent (`Object.assign`) and remove
the `anyOf` key. -/
def walkAnyOfStep (fields : List (String × JsonValue)) : List (String × JsonValue) :=
  match fields.lookup "anyOf" with
  | some (.arr subs) =>
    let subs2 := dedupeByStringify [] subs
    let fieldsA := objInsert fields "anyOf" (.arr subs2)
    match subs2 with
    | [u] => removeKey "anyOf" (assignValue fieldsA u)
    | _ => fieldsA
  | _ => fields

/-- The recursive `walk` of `dedupeUnions` (JSON-Schema branch): process the
node's `anyOf`, then recurse into `Object.values` of the updated node.  The
fuel only bounds the recursion depth of the model; any fuel at least the tree
height evaluates the walk completely. -/
def walkJson : Nat → JsonValue → JsonValue
  | 0, v => v
  | fuel + 1, .obj fields =>
    .obj ((walkAnyOfStep fields).map (fun p => (p.1, walkJson fuel p.2)))
  | fuel + 1, .arr xs => .arr (xs.map (walkJson fuel))
  | _ + 1, v => v

mutual
/-- Node count of a JSON tree, used as the depth bound of `walkJson`. -/
def jsonSize : JsonValue → Nat
  | .arr xs => 1 + jsonSizeList xs
  | .obj fs => 1 + jsonSizeFields fs
  | _ => 1
termination_by structural v => v

def jsonSizeList : List JsonValue → Nat
  | [] => 0
  | x :: xs => jsonSize x + jsonSizeList xs
termination_by structural l => l

def jsonSizeFields : List (String × JsonValue) → Nat
  | [] => 0
  | (_, v) :: fs => jsonSize v + jsonSizeFields fs
termination_by structural l => l
end

/-- The JSON-Schema branch of `dedupeUnions`: parse, walk, re-serialize with
the prettify flag; a parse failure returns the input text unchanged (the
`catch` branch). -/
def dedupeUnionsJsonSchema (text : String) (prettify : Bool) : String :=
  match parseJson text with
  | none => text
  | some obj =>
    let walked := walkJson (jsonSize obj) obj
    if prettify then prettyJson 0 walked else stringifyJson walked

/-! ### TypeScript branch of `dedupeUnions`

The two global regex replacements
`/(\b\w+(?:\[\])?\b)\s*\|\s*\1(?!\w)/g → $1` and
`/(\b\w+(?:\[\])?\b)\s*\|\s*(\b\w+(?:\[\])?\b)/g → swap if p1 > p2`
are modelled by direct scanners.  Both patterns are deterministic once the
word-boundary analysis is done: the leading `\w+` cannot profitably match a
shorter run (an inner split never sits on a word boundary), so the only
choice point is whether the optional `[]` suffix joins the capture, which
requires a following word character for the trailing `\b` to hold after `]`.
-/

/-- JS regex `\w`: ASCII letters, digits, underscore. -/
def isWordChar (c : Char) : Bool := c.isAlphanum || c = '_'

/-- JS regex `\s`, restricted to its ASCII members (the generated text
contains no exotic whitespace). -/
def isRegexWS (c : Char) : Bool :=
  c = ' ' || c = '\t' || c = '\n' || c = '\r' || c = '\x0b' || c = '\x0c'

/-- Word boundary `\b` followed by the start of a word run. -/
def atWordStart (prev : Option Char) (l : List Char) : Bool :=
  match l with
  | c :: _ => isWordChar c && (match prev with | none => true | some p => !isWordChar p)
  | [] => false

/-- Continuation `\s*\|\s*` then the backreference `\1` then `(?!\w)`, for
the duplicate-collapsing pattern.  Returns the rest after the match. -/
def matchSepAndBackref (cap : List Char) (l : List Char) : Option (List Char) :=
  match l.dropWhile isRegexWS with
  | '|' :: l2 =>
    let l3 := l2.dropWhile isRegexWS
    if cap.isPrefixOf l3 then
      let l4 := l3.drop cap.length
      match l4 with
      | c :: _ => if isWordChar c then none else some l4
      | [] => some l4
    else none
  | _ => none

/-- Match of pattern 1 anchored at the current position: returns the capture
and the rest of the input after the whole match. -/
def matchDup (prev : Option Char) (l : List Char) : Option (List Char × List Char) :=
  if atWordStart prev l then
    let run := l.takeWhile isWordChar
    let rest1 := l.dropWhile isWordChar
    let tryBracket : Option (List Char × List Char) :=
      match rest1 with
      | '[' :: ']' :: c :: r2 =>
        if isWordChar c then
          match matchSepAndBackref (run ++ ['[', ']']) (c :: r2) with
          | some rest => some (run ++ ['[', ']'], rest)
          | none => none
        else none
      | _ => none
    match tryBracket with
    | some res => some res
    | none =>
      match matchSepAndBackref run rest1 with
      | some rest => some (run, rest)
      | none => none
  else none

/-- Global scan of replacement 1 (`$1` for each match), continuing after
each match end with the original text's boundary context. -/
def scanDup (fuel : Nat) (prev : Option Char) (l : List Char) : List Char :=
  match fuel, l with
  | 0, l => l
  | _ + 1, [] => []
  | fuel + 1, c :: cs =>
    match matchDup prev (c :: cs) with
    | some (cap, rest) => cap ++ scanDup fuel cap.getLast? rest
    | none => c :: scanDup fuel (some c) cs

/-- Capture `(\b\w+(?:\[\])?\b)` with no continuation constraint (used for
the second group of pattern 2). -/
def matchIdent (prev : Option Char) (l : List Char) : Option (List Char × List Char) :=
  if atWordStart prev l then
    let run := l.takeWhile isWordChar
    let rest1 := l.dropWhile isWordChar
    match rest1 with
    | '[' :: ']' :: c :: r2 =>
      if isWordChar c then some (run ++ ['[', ']'], c :: r2) else some (run, rest1)
    | _ => some (run, rest1)
  else none

/-- Continuation `\s*\|\s*` then the second capture, used by pattern 2.
Returns the capture, the literally consumed middle text, and the rest.  The
character before the second group is `|` or whitespace, never a word
character, so its leading `\b` holds iff the next character is one. -/
def matchSepAndIdent (l : List Char) : Option (List Char × List Char × List Char) :=
  let ws1 := l.takeWhile isRegexWS
  match l.dropWhile isRegexWS with
  | '|' :: l2 =>
    let ws2 := l2.takeWhile isRegexWS
    let l3 := l2.dropWhile isRegexWS
    match matchIdent (some '|') l3 with
    | some (cap2, rest) => some (cap2, ws1 ++ ['|'] ++ ws2, rest)
    | none => none
  | _ => none

/-- Match of pattern 2 anchored at the current position: both captures, the
middle text, and the rest. -/
def matchPair (prev : Option Char) (l : List Char) :
    Option (List Char × List Char × List Char × List Char) :=
  if atWordStart prev l then
    let run := l.takeWhile isWordChar
    let rest1 := l.dropWhile isWordChar
    let tryBracket :=
      match rest1 with
      | '[' :: ']' :: c :: r2 =>
        if isWordChar c then
          match matchSepAndIdent (c :: r2) with
          | some (cap2, mid, rest) => some (run ++ ['[', ']'], mid, cap2, rest)
          | none => none
        else none
      | _ => none
    match tryBracket with
    | some res => some res
    | none =>
      match matchSepAndIdent rest1 with
      | some (cap2, mid, rest) => some (run, mid, cap2, rest)
      | none => none
  else none

/-- Lexicographic comparison by character code. -/
def lexCmp : List Char → List Char → Int
  | [], [] => 0
  | [], _ :: _ => -1
  | _ :: _, [] => 1
  | a :: as, b :: bs => if a < b then -1 else if b < a then 1 else lexCmp as bs

/-- Case tiebreak between strings whose lowercasings agree: the first
case difference decides, lowercase ordering first. -/
def caseCmp : List Char → List Char → Int
  | [], _ => 0
  | _, [] => 0
  | a :: as, b :: bs =>
    if a = b then caseCmp as bs
    else if a.isLower then -1 else 1

/-- Model of the default-locale `String.prototype.localeCompare` on the ASCII
identifiers at hand: case-insensitive primary comparison, then a
lowercase-first case tiebreak (ICU default collation). -/
def localeCompareModel (a b : String) : Int :=
  match lexCmp (a.data.map Char.toLower) (b.data.map Char.toLower) with
  | 0 => caseCmp a.data b.data
  | r => r

/-- Global scan of replacement 2: each match is replaced by
`p2 | p1` when `p1.localeCompare(p2) > 0` and kept verbatim otherwise. -/
def scanPair (fuel : Nat) (prev : Option Char) (l : List Char) : List Char :=
  match fuel, l with
  | 0, l => l
  | _ + 1, [] => []
  | fuel + 1, c :: cs =>
    match matchPair prev (c :: cs) with
    | some (cap1, mid, cap2, rest) =>
      let rep :=
        if localeCompareModel (String.mk cap1) (String.mk cap2) > 0 then
          cap2 ++ [' ', '|', ' '] ++ cap1
        else cap1 ++ mid ++ cap2
      rep ++ scanPair fuel cap2.getLast? rest
    | none => c :: scanPair fuel (some c) cs

/-- One iteration of the do-while body: the duplicate-collapsing replacement
followed by the pairwise-reordering replacement. -/
def stepTS (t : String) : String :=
  let t1 := String.mk (scanDup t.data.length none t.data)
  String.mk (scanPair t1.data.length none t1.data)

/-- The do-while loop of the TypeScript branch of `dedupeUnions`, indexed by
fuel: apply `stepTS`; stop as soon as an iteration changes nothing.  `none`
models a run that has not yet reached the loop's exit condition. -/
def dedupeUnionsTSFuel : Nat → String → Option String
  | 0, _ => none
  | fuel + 1, t =>
    let t2 := stepTS t
    if t2 = t then some t2 else dedupeUnionsTSFuel fuel t2

/-- `y` is the result of the TypeScript branch of `dedupeUnions` on `x`:
some finite number of iterations reaches the fixed point `y`. -/
def DedupeUnionsTS (x y : String) : Prop := ∃ fuel, dedupeUnionsTSFuel fuel x = some y

/-- Top-level union well-formedness of a node (the §3 invariant of the data
model): a `union`-typed node carries an `enum` list of at least two pairwise
structurally distinct children. -/
def topUnionOK (s : SchemaType) : Bool :=
  if s.type = "union" then
    match s.enumv with
    | some cs => decide cs.Nodup && decide (2 ≤ cs.length)
    | none => false
  else true

/-! ## Helper lemmas -/

theorem dedupFS_subset {x : SchemaType} :
    ∀ (seen l : List SchemaType), x ∈ dedupFS seen l → x ∈ l := by
  intro seen l
  induction l generalizing seen with
  | nil => simp [dedupFS]
  | cons a as ih =>
    simp only [dedupFS]
    split_ifs with h
    · intro hx; exact List.mem_cons_of_mem _ (ih _ hx)
    · intro hx
      rcases List.mem_cons.mp hx with rfl | hx
      · exact List.mem_cons_self _ _
      · exact List.mem_cons_of_mem _ (ih _ hx)

theorem dedupFS_not_mem_seen {x : SchemaType} :
    ∀ (seen l : List SchemaType), x ∈ dedupFS seen l → x ∉ seen := by
  intro seen l
  induction l generalizing seen with
  | nil => simp [dedupFS]
  | cons a as ih =>
    simp only [dedupFS]
    split_ifs with h
    · exact ih _
    · intro hx hseen
      rcases List.mem_cons.mp hx with rfl | hx
      · exact h hseen
      · exact ih _ hx (List.mem_cons_of_mem _ hseen)

theorem dedupFS_nodup : ∀ (seen l : List SchemaType), (dedupFS seen l).Nodup := by
  intro seen l
  induction l generalizing seen with
  | nil => simp [dedupFS]
  | cons a as ih =>
    simp only [dedupFS]
    split_ifs with h
    · exact ih _
    · refine List.nodup_cons.mpr ⟨?_, ih _⟩
      intro hmem
      exact (dedupFS_not_mem_seen _ _ hmem) (List.mem_cons_self a seen)

theorem dedupFS_cons (x : SchemaType) (xs : List SchemaType) :
    dedupFS [] (x :: xs) = x :: dedupFS [x] xs := by
  simp [dedupFS]

theorem JSValue.isUndef_eq_false (v : JSValue) : v.isUndef = false ↔ v ≠ .undef := by
  cases v <;> simp [JSValue.isUndef]

/-! ## Claims -/

/-- C1, counterexample: a `string` node with the `date-time` format renders
as the `Date` keyword, not `string`, under the interface-style renderer — the
format does surface for `date-time`. -/
theorem C1_counterexample :
    generateTypeScriptFromSchema (.mk "string" none none (some "date-time") none none)
        ⟨false, false, none⟩ 0 = "Date" ∧
    generateTypeScriptFromSchema (.mk "string" none none (some "date-time") none none)
        ⟨false, false, none⟩ 0 ≠ "string" := by
  constructor
  · rfl
  · decide

/-- C1 (amended): the interface-style renderer emits `string` for a
string-typed node with format none, `email`, `uuid`, or any other value,
but emits `Date` when the format is `date-time`. -/
theorem C1_string_format_rendering (props : Option (List (String × SchemaType)))
    (items : Option SchemaType) (fmt : Option String) (req : Option (List String))
    (en : Option (List SchemaType)) (o : GenerateOptions) (d : Nat) :
    generateTypeScriptFromSchema (.mk "string" props items fmt req en) o d
      = if fmt = some "date-time" then "Date" else "string" := by
  rcases fmt with _ | f
  · rfl
  · by_cases h1 : f = "date-time"
    · subst h1; rfl
    · by_cases h2 : f = "email"
      · subst h2; rfl
      · by_cases h3 : f = "uuid"
        · subst h3; rfl
        · simp [generateTypeScriptFromSchema, h1, h2, h3]

/-- C2, counterexample: `inferSchema` of the empty object yields a node with
an empty-but-present `properties` map, and the interface renderer prints it
as the empty literal, not as `Record<string, any>`. -/
theorem C2_counterexample :
    generateTypeScriptFromSchema (inferSchema (.obj [])) ⟨false, false, none⟩ 0 = "\x7b\n\x7d" ∧
    generateTypeScriptFromSchema (inferSchema (.obj [])) ⟨false, false, none⟩ 0
      ≠ "Record<string, any>" := by
  constructor
  · rfl
  · decide

/-- C2 (amended): `inferSchema(\x7b\x7d)` yields an `object` node with an
empty `properties` map and no `required` list; the interface renderer emits
`Record<string, any>` only for an object node whose `properties` field is
absent, while an object node with an empty-but-present `properties` map —
as produced by `inferSchema(\x7b\x7d)` — renders as the empty literal. -/
theorem C2_empty_object_rendering :
    inferSchema (.obj []) = .mk "object" (some []) none none none none ∧
    (∀ (items : Option SchemaType) (fmt : Option String) (req : Option (List String))
      (en : Option (List SchemaType)) (o : GenerateOptions) (d : Nat),
      generateTypeScriptFromSchema (.mk "object" none items fmt req en) o d
        = "Record<string, any>") ∧
    (∀ o : GenerateOptions,
      generateTypeScriptFromSchema (.mk "object" (some []) none none none none) o 0 = "\x7b\n\x7d") := by
  refine ⟨by decide, ?_, ?_⟩
  · intro items fmt req en o d; rfl
  · intro o; rfl

/-- C3, counterexample: the JSON-Schema rendering of `inferSchema([])` does
not have an empty open schema as `items` — the placeholder child renders as a
description-only schema instead. -/
theorem C3_counterexample :
    generateJsonSchemaFromSchema (inferSchema (.arr [])) ⟨false, false, none⟩
      ≠ [("type", JsonValue.str "array"), ("items", JsonValue.obj [])] := by
  decide

/-- C3 (amended): `inferSchema([])` yields an `array` node wrapping the
`\x7b type: "any" \x7d` placeholder child, and its JSON-Schema rendering is
`\x7b type: "array", items: \x7b description: "Represents type: any" \x7d \x7d`
— the `items` schema is an annotation-only (hence unconstrained) schema, not
the empty schema object. -/
theorem C3_empty_array_json_schema (o : GenerateOptions) :
    inferSchema (.arr []) = .mk "array" none (some anySchema) none none none ∧
    generateJsonSchemaFromSchema (inferSchema (.arr [])) o
      = [("type", JsonValue.str "array"),
         ("items", JsonValue.obj [("description", JsonValue.str "Represents type: any")])] := by
  exact ⟨rfl, rfl⟩

/-- C4, counterexample: merging the empty list of schemas returns the
`\x7b type: "any" \x7d` fallback node — it does not fail or surface any
`EmptyUnificationInput` error. -/
theorem C4_counterexample :
    mergeSchemas [] = SchemaType.mk "any" none none none none none := by
  decide

/-- C4 (amended): unifying an empty list of Schema Nodes silently returns
the default `any` node rather than failing explicitly. -/
theorem C4_empty_merge_silent_default :
    (mergeSchemas []).type = "any" ∧ mergeSchemas [] = anySchema := by
  decide

/-- C9: the three non-finite JavaScript numbers (NaN and the two infinities)
all classify as a `number` node, never as `integer` — `Number.isInteger` is
false on each of them. -/
theorem C9_nonfinite_numbers_classify_as_number :
    inferPrimitiveSchema (.num .nan) = .mk "number" none none none none none ∧
    inferPrimitiveSchema (.num .posInf) = .mk "number" none none none none none ∧
    inferPrimitiveSchema (.num .negInf) = .mk "number" none none none none none := by
  decide

/-- C5: for well-formed inputs, the Unifier returns a singleton input
unchanged, collapses an all-equal list to its first element, preserves the
union invariant, and produces a fresh node (one not among its inputs) only
as a union of the first-seen-order deduplication of the input, which then has
at least two pairwise structurally distinct children. -/
theorem C5_unifier_union_invariant (l : List SchemaType) (hne : l ≠ [])
    (hwf : ∀ s ∈ l, topUnionOK s = true) :
    (∀ x, l = [x] → mergeSchemas l = x) ∧
    (∀ x xs, l = x :: xs → (∀ y ∈ xs, y = x) → mergeSchemas l = x) ∧
    topUnionOK (mergeSchemas l) = true ∧
    (mergeSchemas l ∉ l →
      mergeSchemas l = unionSchema (dedupFS [] l) ∧
      (dedupFS [] l).Nodup ∧ 2 ≤ (dedupFS [] l).length) := by
  match l with
  | [] => exact absurd rfl hne
  | [x] =>
    have hm : mergeSchemas [x] = x := rfl
    refine ⟨?_, ?_, ?_, ?_⟩
    · intro x' hx; cases hx; rfl
    · intro x' xs hx _; cases hx; rfl
    · rw [hm]; exact hwf x (by simp)
    · intro hnot; rw [hm] at hnot; exact absurd (by simp) hnot
  | x :: y :: rest =>
    have hmerge : mergeSchemas (x :: y :: rest)
        = if (x :: y :: rest).all (fun s => s == x) then x
          else
            match dedupFS [] (x :: y :: rest) with
            | [u] => u
            | us => unionSchema us := rfl
    by_cases hall : (x :: y :: rest).all (fun s => s == x) = true
    · have hm : mergeSchemas (x :: y :: rest) = x := by rw [hmerge]; simp [hall]
      refine ⟨?_, ?_, ?_, ?_⟩
      · intro x' h; simp at h
      · intro x' xs h _; cases h; exact hm
      · rw [hm]; exact hwf x (by simp)
      · intro hnot; rw [hm] at hnot; exact absurd (by simp) hnot
    · have hconj2 : ∀ x' xs, (x :: y :: rest) = x' :: xs → (∀ y' ∈ xs, y' = x') →
          mergeSchemas (x :: y :: rest) = x' := by
        intro x' xs h hall2
        cases h
        exfalso
        apply hall
        simp only [List.all_eq_true, beq_iff_eq]
        intro s hs
        rcases List.mem_cons.mp hs with rfl | hs
        · rfl
        · exact hall2 s hs
      have hm : mergeSchemas (x :: y :: rest)
          = match dedupFS [] (x :: y :: rest) with
            | [u] => u
            | us => unionSchema us := by
        rw [hmerge]; simp [hall]
      rcases hdd : dedupFS [] (x :: y :: rest) with _ | ⟨u, _ | ⟨u2, us⟩⟩
      · rw [dedupFS_cons] at hdd
        exact absurd hdd (by simp)
      · have hm2 : mergeSchemas (x :: y :: rest) = u := by rw [hm, hdd]
        have humem : u ∈ x :: y :: rest := dedupFS_subset _ _ (by rw [hdd]; simp)
        refine ⟨?_, hconj2, ?_, ?_⟩
        · intro x' h; simp at h
        · rw [hm2]; exact hwf u humem
        · intro hnot; rw [hm2] at hnot; exact absurd humem hnot
      · have hm2 : mergeSchemas (x :: y :: rest) = unionSchema (u :: u2 :: us) := by
          rw [hm, hdd]
        have hnd : (u :: u2 :: us).Nodup := by rw [← hdd]; exact dedupFS_nodup _ _
        refine ⟨?_, hconj2, ?_, ?_⟩
        · intro x' h; simp at h
        · rw [hm2]
          simp only [topUnionOK, unionSchema, SchemaType.type, SchemaType.enumv, if_pos,
            Bool.and_eq_true, decide_eq_true_eq]
          exact ⟨hnd, by simp⟩
        · intro _
          exact ⟨hm2, hnd, by simp⟩

/-- C5, witness: merging the two distinct nodes `null` and `boolean`
produces a node satisfying the union invariant. -/
theorem C5_unifier_union_invariant_witness :
    topUnionOK (mergeSchemas [SchemaType.mk "null" none none none none none,
        SchemaType.mk "boolean" none none none none none]) = true :=
  (C5_unifier_union_invariant
    [SchemaType.mk "null" none none none none none,
     SchemaType.mk "boolean" none none none none none]
    (by decide) (by decide)).2.2.1

/-- C6: the JSON-Schema renderer's `required` output for an object node:
with `inferOptional = true` it is exactly the node's recorded `required`
list (the key is omitted when that list is empty or absent); with
`inferOptional = false` it is the full key list of `properties`, regardless
of the recorded presence history (omitted when there are no properties). -/
theorem C6_json_required_policy (props : Option (List (String × SchemaType)))
    (items : Option SchemaType) (fmt : Option String) (req : Option (List String))
    (en : Option (List SchemaType)) (pretty : Bool) (name : Option String) :
    (List.lookup "required"
        (generateJsonSchemaFromSchema (.mk "object" props items fmt req en)
          ⟨true, pretty, name⟩)
      = match req with
        | some r => if r.isEmpty then none else some (JsonValue.arr (r.map JsonValue.str))
        | none => none) ∧
    (List.lookup "required"
        (generateJsonSchemaFromSchema (.mk "object" props items fmt req en)
          ⟨false, pretty, name⟩)
      = match props with
        | some ps => if ps.isEmpty then none
            else some (JsonValue.arr ((ps.map Prod.fst).map JsonValue.str))
        | none => none) := by
  constructor
  · rcases req with _ | r
    · rfl
    · rcases r with _ | ⟨a, as⟩
      · rfl
      · simp [generateJsonSchemaFromSchema, List.lookup]
  · rcases props with _ | ps
    · rfl
    · rcases ps with _ | ⟨p, ps'⟩
      · rfl
      · simp [generateJsonSchemaFromSchema, List.lookup]

/-- C7: during object inference, a key enters the recorded `required` list
iff its value is not the `undefined` sentinel; in particular an explicit
`null` value counts as present. -/
theorem C7_present_iff_value_defined (fields : List (String × JSValue)) (k : String) :
    k ∈ (inferSchema (.obj fields)).required.getD [] ↔
      ∃ v, (k, v) ∈ fields ∧ v ≠ JSValue.undef := by
  have hreq : (inferSchema (.obj fields)).required.getD [] = requiredKeysOf fields := by
    simp only [inferSchema]
    by_cases h : (requiredKeysOf fields).length > 0
    · simp [h, SchemaType.required]
    · simp only [h, if_false, SchemaType.required, Option.getD_none]
      exact (List.eq_nil_of_length_eq_zero (by omega)).symm
  rw [hreq]
  simp only [requiredKeysOf, List.mem_map, List.mem_filter]
  constructor
  · rintro ⟨⟨k', v⟩, ⟨hmem, hundef⟩, rfl⟩
    refine ⟨v, hmem, (JSValue.isUndef_eq_false v).mp ?_⟩
    simpa using hundef
  · rintro ⟨v, hmem, hne⟩
    refine ⟨(k, v), ⟨hmem, ?_⟩, rfl⟩
    simpa using (JSValue.isUndef_eq_false v).mpr hne

/-- C8, counterexample: the JSON-Schema-target deduplication pass is not
idempotent.  Collapsing the singleton inner `anyOf` makes the two outer
`anyOf` members equal, so a second application of the pass collapses the
document further. -/
theorem C8_counterexample :
    dedupeUnionsJsonSchema
        (dedupeUnionsJsonSchema
          "\x7b\"anyOf\":[\x7b\"anyOf\":[\x7b\"type\":\"string\"\x7d]\x7d,\x7b\"type\":\"string\"\x7d]\x7d" false) false
      ≠ dedupeUnionsJsonSchema
          "\x7b\"anyOf\":[\x7b\"anyOf\":[\x7b\"type\":\"string\"\x7d]\x7d,\x7b\"type\":\"string\"\x7d]\x7d" false := by
  decide

/-- C8 (amended): the TypeScript-target deduplication pass is idempotent —
any text it produces is a fixed point of the rewrite step, so feeding the
output back in returns it unchanged after a single iteration.  (The
JSON-Schema-target pass is not idempotent, see the counterexample.) -/
theorem C8_ts_dedupe_idempotent (x y : String) (h : DedupeUnionsTS x y) :
    stepTS y = y ∧ dedupeUnionsTSFuel 1 y = some y := by
  have hfix : stepTS y = y := by
    obtain ⟨fuel, hf⟩ := h
    induction fuel generalizing x with
    | zero => simp [dedupeUnionsTSFuel] at hf
    | succ n ih =>
      rw [dedupeUnionsTSFuel] at hf
      by_cases hc : stepTS x = x
      · simp only [hc, if_pos] at hf
        have : x = y := by simpa [hc] using hf
        rw [← this, hc]
      · simp only [hc, if_neg, if_false] at hf
        exact ih _ hf
  refine ⟨hfix, ?_⟩
  rw [dedupeUnionsTSFuel]
  simp [hfix]

/-- C8, witness: deduplicating `"b | a"` produces `"a | b"`, on which a
second run of the pass is a no-op. -/
theorem C8_ts_dedupe_idempotent_witness :
    DedupeUnionsTS "b | a" "a | b" ∧ dedupeUnionsTSFuel 1 "a | b" = some "a | b" :=
  ⟨⟨2, by decide⟩, (C8_ts_dedupe_idempotent "b | a" "a | b" ⟨2, by decide⟩).2⟩

/-- C10: when the input text does not parse as JSON, the JSON-Schema-target
deduplication pass returns the text unchanged (the `catch` branch) instead of
raising. -/
theorem C10_parse_failure_returns_input (text : String) (prettify : Bool)
    (h : parseJson text = none) :
    dedupeUnionsJsonSchema text prettify = text := by
  simp [dedupeUnionsJsonSchema, h]

/-- C10, witness: the malformed text `"\x7binvalid"` fails to parse and
passes through the deduplication pass unchanged. -/
theorem C10_parse_failure_returns_input_witness :
    parseJson "\x7binvalid" = none ∧ dedupeUnionsJsonSchema "\x7binvalid" false = "\x7binvalid" :=
  ⟨by decide, C10_parse_failure_returns_input "\x7binvalid" false (by decide)⟩
